import Mathlib

/-!
Verification of the rule-based analysis engine of `src/server/analyze.js`
(the `analyze` function and its static rule catalog).

Strings are modelled as `List Char` (`Str`); offsets are character indices.
The JavaScript regular expressions of the catalog are embedded as a small
first-order regex AST (`CCls` for character classes, `RE` for patterns).
Every star in the catalog is a star over a single character class, so the
backtracking match semantics (`seeds`, returning all candidate match ends in
JavaScript backtracking priority order, head = the match the JS engine picks)
is structurally recursive.  The `g`-flag `exec` loop of the source, which sets
`lastIndex` to the end of each match and does not advance on zero-width
matches, is modelled fuel-based by `execLoop`; the fuel `length + 1` is proved
sufficient for the catalog's rules (they never match the empty string).
-/

set_option maxRecDepth 16384

namespace Rerender

abbrev Str := List Char

/-- `String.data` view of a string literal. -/
def strOf (s : String) : Str := s.data

/-- The character set of the JavaScript `\s` class (also the set trimmed by
`String.prototype.trim`): ASCII whitespace, NBSP, BOM, and the Unicode
space-separator characters. -/
def jsWsList : List Char :=
  [' ', '\t', '\n', '\r', '\x0b', '\x0c', '\u00A0', '\uFEFF',
   '\u1680', '\u2000', '\u2001', '\u2002', '\u2003', '\u2004', '\u2005',
   '\u2006', '\u2007', '\u2008', '\u2009', '\u200A',
   '\u2028', '\u2029', '\u202F', '\u205F', '\u3000']

def jsWs (c : Char) : Bool := jsWsList.contains c

/-- ASCII-only lower-casing, the case canonicalization relevant to the
`i`-flagged patterns of the catalog (their literals are all ASCII; in non-
Unicode mode a non-ASCII input character never case-folds onto an ASCII one). -/
def asciiLower (c : Char) : Char :=
  if 'A' ≤ c ∧ c ≤ 'Z' then Char.ofNat (c.toNat + 32) else c

/-- JavaScript `String.prototype.trim`. -/
def trimStr (s : Str) : Str :=
  ((s.dropWhile jsWs).reverse.dropWhile jsWs).reverse

/-- Character classes occurring in the catalog's regular expressions. -/
inductive CCls where
  | lit (c : Char)        -- a literal character
  | ciLit (c : Char)      -- a literal character under the `i` flag
  | range (lo hi : Char)  -- `[lo-hi]`
  | ws                    -- `\s`
  | dot                   -- `.` (anything but a line terminator)
  | union (a b : CCls)
  | neg (a : CCls)        -- `[^...]`
  deriving Repr, DecidableEq

def CCls.test : CCls → Char → Bool
  | .lit c, x => x == c
  | .ciLit c, x => asciiLower x == asciiLower c
  | .range lo hi, x => decide (lo ≤ x) && decide (x ≤ hi)
  | .ws, x => jsWs x
  | .dot, x => !(x == '\n' || x == '\r' || x == '\u2028' || x == '\u2029')
  | .union a b, x => a.test x || b.test x
  | .neg a, x => !(a.test x)

/-- Regex AST.  `star` only ever carries a single character class (true of
every star in the catalog), which keeps the match semantics structurally
recursive.  `group n` is capture group number `n`; `nla` is `(?!...)`. -/
inductive RE where
  | eps
  | cls (c : CCls)
  | cat (a b : RE)
  | alt (a b : RE)
  | star (c : CCls)
  | group (n : Nat) (a : RE)
  | nla (a : RE)
  deriving Repr, DecidableEq

/-- Concatenation of a list of regexes. -/
def reSeq (l : List RE) : RE := l.foldr RE.cat RE.eps

/-- A literal string as a regex. -/
def lits (s : String) : RE := reSeq (s.data.map (fun c => RE.cls (.lit c)))

/-- A literal string as a regex, under the `i` flag. -/
def ciLits (s : String) : RE := reSeq (s.data.map (fun c => RE.cls (.ciLit c)))

/-- One literal character. -/
def lch (c : Char) : RE := RE.cls (.lit c)

/-- `\s*` -/
def wsStar : RE := RE.star .ws

/-- `\s+` -/
def wsPlus : RE := RE.cat (RE.cls .ws) (RE.star .ws)

/-- `[^c]*` -/
def nstar (c : Char) : RE := RE.star (.neg (.lit c))

/-- Capture-group assignments: entries `(group number, start, end)`, most
recent first. -/
abbrev Caps := List (Nat × Nat × Nat)

/-- Length of the maximal run of characters satisfying `cc`. -/
def runLen (cc : CCls) : Str → Nat
  | [] => 0
  | c :: t => if cc.test c then runLen cc t + 1 else 0

/-- All candidate ways to match `r` starting at offset `i` of `s`, as pairs
of match end offset and capture assignment, in JavaScript backtracking
priority order (greedy stars longest-first, alternation left-first); the head
is the alternative the JS engine commits to.  A negative lookahead succeeds
exactly when the inner pattern has no match here, and publishes no captures. -/
def seeds (s : Str) : RE → Nat → Caps → List (Nat × Caps)
  | .eps, i, cs => [(i, cs)]
  | .cls cc, i, cs =>
    match s[i]? with
    | some c => if cc.test c then [(i + 1, cs)] else []
    | none => []
  | .cat a b, i, cs => (seeds s a i cs).flatMap (fun ec => seeds s b ec.1 ec.2)
  | .alt a b, i, cs => seeds s a i cs ++ seeds s b i cs
  | .star cc, i, cs =>
    let m := runLen cc (s.drop i)
    (List.range (m + 1)).map (fun k => (i + m - k, cs))
  | .group n a, i, cs => (seeds s a i cs).map (fun ec => (ec.1, (n, i, ec.1) :: ec.2))
  | .nla a, i, cs => if (seeds s a i cs).isEmpty then [(i, cs)] else []

/-- The characters of `s` in offset interval `[a, b)`. -/
def sliceStr (s : Str) (a b : Nat) : Str := (s.take b).drop a

/-- The match object produced by one successful `exec`: `index` is
`match.index`, `text` is `match[0]`, `cap1` is `match[1]`. -/
structure MatchRes where
  index : Nat
  text : Str
  cap1 : Option Str
  deriving Repr, DecidableEq

def mkMatch (s : Str) (i e : Nat) (caps : Caps) : MatchRes :=
  ⟨i, sliceStr s i e, (caps.lookup 1).map (fun p => sliceStr s p.1 p.2)⟩

/-- Leftmost match of `r` in `s` at offset `i` or later (what `exec` finds
when `lastIndex = i`).  `fuel` bounds the positions still to try; the wrapper
`firstMatch` supplies `s.length + 1 - i`, enough to try every position up to
and including `s.length`, after which `exec` fails (as in JS, where a
`lastIndex` beyond the string fails immediately). -/
def fmf (s : Str) (r : RE) : Nat → Nat → Option MatchRes
  | 0, _ => none
  | fuel + 1, i =>
    if s.length < i then none
    else
      match (seeds s r i []).head? with
      | some ec => some (mkMatch s i ec.1 ec.2)
      | none => fmf s r fuel (i + 1)

def firstMatch (s : Str) (r : RE) (i : Nat) : Option MatchRes :=
  fmf s r (s.length + 1 - i) i

/-- The source's scan loop `while ((match = rule.regex.exec(code)) !== null)`:
after each match, `lastIndex` becomes `match.index + match[0].length` (note:
the source never advances it further on a zero-width match; for the catalog's
rules every match is nonempty, and fuel `s.length + 1` is proved sufficient). -/
def execLoop (s : Str) (r : RE) : Nat → Nat → List MatchRes
  | 0, _ => []
  | fuel + 1, li =>
    match firstMatch s r li with
    | none => []
    | some m => m :: execLoop s r fuel (m.index + m.text.length)

/-- All matches of one rule's pattern against `s`, in scan order. -/
def scanRule (s : Str) (r : RE) : List MatchRes := execLoop s r (s.length + 1) 0

/-! ## The data model of `analyze.js` -/

/-- `SAFE_USESTATE_INITIALIZERS`. -/
def safeUseStateInits : List String :=
  ["Number", "String", "Boolean", "Object", "Array", "Date"]

/-- A catalog entry of `ANALYSIS_RULES`.  Absent optional fields
(`requiresMemoContext`, `suppressBuiltIns`) are modelled as `false`. -/
structure Rule where
  id : String
  type : String
  title : String
  why : String
  fix : String
  severity : String
  regex : RE
  requiresMemoContext : Bool
  suppressBuiltIns : Bool
  deriving Repr, DecidableEq

/-! The catalog regexes, one definition per source regex literal. -/

/-- `/useEffect\s*\(\s*\(\s*\)\s*=>\s*\{[^}]*\}\s*\)/g` -/
def reA001 : RE := reSeq [lits "useEffect", wsStar, lch '(', wsStar, lch '(',
  wsStar, lch ')', wsStar, lits "=>", wsStar, lch '{', nstar '}', lch '}',
  wsStar, lch ')']

/-- `/(useMemo|useCallback)\s*\(\s*(\([^\)]*\)\s*=>\s*\{[^}]*\})\s*\)(?!\s*,\s*\[)/g` -/
def reA002 : RE := reSeq [
  RE.group 1 (RE.alt (lits "useMemo") (lits "useCallback")),
  wsStar, lch '(', wsStar,
  RE.group 2 (reSeq [lch '(', nstar ')', lch ')', wsStar, lits "=>", wsStar,
    lch '{', nstar '}', lch '}']),
  wsStar, lch ')',
  RE.nla (reSeq [wsStar, lch ',', wsStar, lch '['])]

/-- `[a-zA-Z_$]` -/
def identHeadCC : CCls :=
  .union (.range 'a' 'z') (.union (.range 'A' 'Z') (.union (.lit '_') (.lit '$')))

/-- `[a-zA-Z0-9_$]` -/
def identTailCC : CCls :=
  .union (.range 'a' 'z') (.union (.range 'A' 'Z')
    (.union (.range '0' '9') (.union (.lit '_') (.lit '$'))))

/-- `/useState\(\s*([a-zA-Z_$][a-zA-Z0-9_$]*)\s*\)/g` -/
def reA003 : RE := reSeq [lits "useState", lch '(', wsStar,
  RE.group 1 (RE.cat (RE.cls identHeadCC) (RE.star identTailCC)),
  wsStar, lch ')']

/-- `/(on[A-Z][^=]*|onClick|onChange)=\s*\{\s*\([^\)]*\)\s*=>\s*[^}]*\}/g`
(the pattern shared, textually, by rules B001A and B001B). -/
def reB001 : RE := reSeq [
  RE.group 1 (RE.alt (reSeq [lits "on", RE.cls (.range 'A' 'Z'), nstar '='])
    (RE.alt (lits "onClick") (lits "onChange"))),
  lch '=', wsStar, lch '{', wsStar, lch '(', nstar ')', lch ')',
  wsStar, lits "=>", wsStar, nstar '}', lch '}']

/-- `/(config|options|data|items|settings)=\s*\{\s*(\{[^}]*\}|\[[^\]]*\])\s*\}/g` -/
def reB002 : RE := reSeq [
  RE.group 1 (RE.alt (lits "config") (RE.alt (lits "options")
    (RE.alt (lits "data") (RE.alt (lits "items") (lits "settings"))))),
  lch '=', wsStar, lch '{', wsStar,
  RE.group 2 (RE.alt (reSeq [lch '{', nstar '}', lch '}'])
    (reSeq [lch '[', nstar ']', lch ']'])),
  wsStar, lch '}']

/-- `/key\s*=\s*\{\s*(index|i)\s*\}/g` -/
def reB003 : RE := reSeq [lits "key", wsStar, lch '=', wsStar, lch '{', wsStar,
  RE.group 1 (RE.alt (lits "index") (lits "i")), wsStar, lch '}']

/-- `/<img\s+(?!.*alt=)/gi` -/
def reC001 : RE := reSeq [ciLits "<img", wsPlus,
  RE.nla (RE.cat (RE.star .dot) (ciLits "alt="))]

/-- `/<(input|textarea|select)\s+(?!.*(id=|aria-label=|aria-labelledby=))/gi` -/
def reC002 : RE := reSeq [lch '<',
  RE.group 1 (RE.alt (ciLits "input") (RE.alt (ciLits "textarea") (ciLits "select"))),
  wsPlus,
  RE.nla (RE.cat (RE.star .dot)
    (RE.group 2 (RE.alt (ciLits "id=")
      (RE.alt (ciLits "aria-label=") (ciLits "aria-labelledby=")))))]

/-- `/React\.memo\s*\(/`, the memoization-context detector. -/
def memoRE : RE := reSeq [lits "React.memo", wsStar, lch '(']

def ruleA001 : Rule :=
  { id := "A001", type := "useEffect-missing-deps",
    title := "Missing dependency array in useEffect",
    why := "This effect runs after every render, which may cause unnecessary work or unintended behavior.",
    fix := "Add a dependency array (`[]` or `[deps]`) to control when the effect runs.",
    severity := "High", regex := reA001,
    requiresMemoContext := false, suppressBuiltIns := false }

def ruleA002 : Rule :=
  { id := "A002", type := "useMemo-useCallback-missing-deps",
    title := "useMemo / useCallback missing dependency array",
    why := "Using these hooks without a dependency array provides no memoization benefit.",
    fix := "Always pass a dependency array. Remove the hook if memoization is unnecessary.",
    severity := "Medium", regex := reA002,
    requiresMemoContext := false, suppressBuiltIns := false }

def ruleA003 : Rule :=
  { id := "A003", type := "useState-function-reference",
    title := "useState initialized with function reference",
    why := "Passing a function reference to useState stores the function itself as state. This is often unintentional.",
    fix := "If you intend to compute an initial value, wrap the call: useState(() => computeValue()).",
    severity := "Low", regex := reA003,
    requiresMemoContext := false, suppressBuiltIns := true }

def ruleB001A : Rule :=
  { id := "B001A", type := "inline-function-breaks-memoization",
    title := "Inline function breaks memoization",
    why := "This inline function is passed to a memoized component. A new function is created on every render, defeating React.memo.",
    fix := "Extract the handler and memoize it using useCallback before passing it to the memoized component.",
    severity := "High", regex := reB001,
    requiresMemoContext := true, suppressBuiltIns := false }

def ruleB001B : Rule :=
  { id := "B001B", type := "jsx-inline-arrow-function",
    title := "Inline arrow function in JSX prop (context-dependent)",
    why := "Inline arrow functions create a new function on every render. This is usually fine, but can cause unnecessary re-renders when passed to memoized or frequently re-rendered components.",
    fix := "If this prop is passed to a memoized or frequently rendered child, consider extracting or memoizing the handler.",
    severity := "Info", regex := reB001,
    requiresMemoContext := false, suppressBuiltIns := false }

def ruleB002 : Rule :=
  { id := "B002", type := "jsx-inline-object-literal",
    title := "Inline object or array literal in JSX prop",
    why := "New object or array references are created on every render, causing unnecessary re-renders.",
    fix := "Move the object/array outside the component or memoize it with useMemo.",
    severity := "Medium", regex := reB002,
    requiresMemoContext := false, suppressBuiltIns := false }

def ruleB003 : Rule :=
  { id := "B003", type := "jsx-array-index-key",
    title := "Using array index as key",
    why := "Using index as key can cause incorrect UI updates when list order changes.",
    fix := "Use a stable, unique identifier from the data instead.",
    severity := "High", regex := reB003,
    requiresMemoContext := false, suppressBuiltIns := false }

def ruleC001 : Rule :=
  { id := "C001", type := "a11y-missing-alt",
    title := "Image missing alt attribute",
    why := "Missing alt text harms accessibility for screen reader users.",
    fix := "Add a meaningful alt attribute or use alt=\"\" for decorative images.",
    severity := "High", regex := reC001,
    requiresMemoContext := false, suppressBuiltIns := false }

def ruleC002 : Rule :=
  { id := "C002", type := "a11y-missing-label",
    title := "Form control missing label",
    why := "Form elements without labels are inaccessible to assistive technologies.",
    fix := "Add a <label>, aria-label, or aria-labelledby.",
    severity := "Medium", regex := reC002,
    requiresMemoContext := false, suppressBuiltIns := false }

/-- `ANALYSIS_RULES`, in catalog order. -/
def analysisRules : List Rule :=
  [ruleA001, ruleA002, ruleA003, ruleB001A, ruleB001B, ruleB002, ruleB003,
   ruleC001, ruleC002]

/-! ## The analysis pipeline -/

/-- An `occurrence` record of an issue. -/
structure Occurrence where
  lineNumber : Nat
  snippet : Str
  charStart : Nat
  charEnd : Nat
  deriving Repr, DecidableEq

/-- An element of the `issues` array. -/
structure Issue where
  id : String
  type : String
  title : String
  why : String
  fix : String
  severity : String
  occurrence : Occurrence
  deriving Repr, DecidableEq

/-- The three values the `status` string of a report can take;
`IssuesFound` models the string literal `'Issues Found'`. -/
inductive Status where
  | Error
  | Clean
  | IssuesFound
  deriving Repr, DecidableEq

/-- The report object returned by `analyze`.  `Option` fields model JS object
fields that are absent on one of the two return paths: the error path carries
no `totalIssues` and no `issues`, the success path carries no `error`. -/
structure Report where
  timestamp : String
  status : Status
  totalIssues : Option Nat
  issues : Option (List Issue)
  error : Option String
  deriving Repr, DecidableEq

/-- The runtime value handed to `analyze(code)`; JS is untyped, so the
argument may be a string, `null`, `undefined` (absent), a number, a boolean,
or some other object. -/
inductive JSVal where
  | jstr (s : Str)
  | jnull
  | jundefined
  | jnum (n : Int)
  | jbool (b : Bool)
  | jobject
  deriving Repr, DecidableEq

/-- `(code.slice(0, startIndex).match(/\n/g) || []).length` -/
def countNewlines (s : Str) : Nat := s.countP (fun c => c == '\n')

/-- Building one issue record from a match (the body of `issues.push`). -/
def mkIssue (rule : Rule) (s : Str) (m : MatchRes) : Issue :=
  let matchText := trimStr m.text
  { id := rule.id, type := rule.type, title := rule.title, why := rule.why,
    fix := rule.fix, severity := rule.severity,
    occurrence :=
      { lineNumber := countNewlines (s.take m.index) + 1,
        snippet := matchText,
        charStart := m.index,
        charEnd := m.index + matchText.length } }

/-- The `continue` condition: suppress safe built-in initializers for A003
(`rule.id === 'A003' && rule.suppressBuiltIns && SAFE_USESTATE_INITIALIZERS.has(match[1])`;
for a rule without a first capture group `match[1]` is `undefined` and the
set membership test is false). -/
def suppressedMatch (rule : Rule) (m : MatchRes) : Bool :=
  rule.id == "A003" && rule.suppressBuiltIns &&
    (match m.cap1 with
     | some n => safeUseStateInits.contains (String.mk n)
     | none => false)

/-- The issues one rule contributes: every match of its regex, minus the
suppressed ones. -/
def ruleIssues (s : Str) (rule : Rule) : List Issue :=
  (scanRule s rule.regex).filterMap
    (fun m => if suppressedMatch rule m then none else some (mkIssue rule s m))

/-- `/React\.memo\s*\(/.test(code)`: the memoization context fact, detected
once per input. -/
def hasMemoizedComponent (s : Str) : Bool := (firstMatch s memoRE 0).isSome

/-- The flat issue list in catalog-then-scan order (the contents of the
`issues` array before sorting): each rule in catalog order, skipped entirely
when it requires the memoization context and the input has none. -/
def rawIssues (s : Str) : List Issue :=
  analysisRules.flatMap (fun rule =>
    if rule.requiresMemoContext && !hasMemoizedComponent s then []
    else ruleIssues s rule)

/-- `severityRank = { High: 3, Medium: 2, Low: 1, Info: 0 }` (every severity
in the catalog is one of the four keys). -/
def severityRank (s : String) : Nat :=
  if s == "High" then 3 else if s == "Medium" then 2
  else if s == "Low" then 1 else 0

/-- The sort comparator `severityRank[b.severity] - severityRank[a.severity]
|| a.occurrence.lineNumber - b.occurrence.lineNumber`, rendered as the
non-strict order it induces: `issueLE a b` holds iff the comparator returns
a value `≤ 0` on `(a, b)`. -/
def issueLE (a b : Issue) : Bool :=
  decide (severityRank b.severity < severityRank a.severity) ||
    (severityRank a.severity == severityRank b.severity &&
      decide (a.occurrence.lineNumber ≤ b.occurrence.lineNumber))

/-- Insert into a sorted list, before the first element that `a` may precede
(keeps elements that tie with `a` after it). -/
def orderedIns (le : α → α → Bool) (a : α) : List α → List α
  | [] => [a]
  | b :: l => if le a b then a :: b :: l else b :: orderedIns le a l

/-- A stable sort.  ECMAScript requires `Array.prototype.sort` to be stable
and to produce a list sorted with respect to the comparator; for a consistent
comparator (ours is induced by a total preorder on the two sort keys) those
two requirements determine the output uniquely, so this structural insertion
sort is an exact model of `issues.sort(...)` in the source. -/
def stableSort (le : α → α → Bool) : List α → List α
  | [] => []
  | a :: l => orderedIns le a (stableSort le l)

/-- `'Invalid or missing code provided.'` -/
def invalidMsg : String := "Invalid or missing code provided."

/-- The `analyze(code)` function.  The ambient timestamp
(`new Date().toISOString()`) is passed in as the parameter `now`.  The guard
`!code || typeof code !== 'string'` rejects every non-string value and also
the empty string (which is falsy in JS). -/
def analyze (now : String) (code : JSVal) : Report :=
  match code with
  | .jstr s =>
    if s.isEmpty then
      { timestamp := now, status := .Error, totalIssues := none,
        issues := none, error := some invalidMsg }
    else
      let issues := rawIssues s
      { timestamp := now,
        status := if issues.length == 0 then .Clean else .IssuesFound,
        totalIssues := some issues.length,
        issues := some (stableSort issueLE issues),
        error := none }
  | _ =>
    { timestamp := now, status := .Error, totalIssues := none,
      issues := none, error := some invalidMsg }

/-! ## Syntactic analyses of patterns

`consumes r` says every match of `r` consumes at least one character (in
particular `r` has no zero-width match); `reqNW r` says every match of `r`
consumes at least one non-whitespace character.  Both hold for every pattern
in the catalog and are the key to termination of the scan loop and to the
behaviour of `analyze` on blank input. -/

def consumes : RE → Bool
  | .eps => false
  | .cls _ => true
  | .cat a b => consumes a || consumes b
  | .alt a b => consumes a && consumes b
  | .star _ => false
  | .group _ a => consumes a
  | .nla _ => false

/-- `exclWS cc` : no whitespace character passes the class `cc`. -/
def exclWS : CCls → Bool
  | .lit c => !jsWs c
  | .ciLit c => !jsWs (asciiLower c)
  | .range lo hi => jsWsList.all (fun w => !(decide (lo ≤ w) && decide (w ≤ hi)))
  | .ws => false
  | .dot => false
  | .union a b => exclWS a && exclWS b
  | .neg _ => false

def reqNW : RE → Bool
  | .eps => false
  | .cls cc => exclWS cc
  | .cat a b => reqNW a || reqNW b
  | .alt a b => reqNW a && reqNW b
  | .star _ => false
  | .group _ a => reqNW a
  | .nla _ => false

theorem head?_mem {l : List α} {x : α} (h : l.head? = some x) : x ∈ l := by
  cases l with
  | nil => simp at h
  | cons a t => simp [List.head?] at h; simp [h]

theorem asciiLower_of_ws : ∀ c ∈ jsWsList, asciiLower c = c := by decide

theorem jsWs_mem {c : Char} (h : jsWs c = true) : c ∈ jsWsList := by
  simpa [jsWs, List.contains, List.elem_iff] using h

theorem exclWS_spec {cc : CCls} {ch : Char} (h : exclWS cc = true)
    (ht : cc.test ch = true) : jsWs ch = false := by
  induction cc with
  | lit c =>
    simp [CCls.test] at ht
    simp [exclWS] at h
    simpa [ht] using h
  | ciLit c =>
    by_contra hw
    simp only [Bool.not_eq_false] at hw
    have hmem := jsWs_mem hw
    have hfix : asciiLower ch = ch := asciiLower_of_ws ch hmem
    simp [CCls.test, hfix] at ht
    simp [exclWS, ← ht] at h
    simp [h] at hw
  | range lo hi =>
    by_contra hw
    simp only [Bool.not_eq_false] at hw
    have hmem := jsWs_mem hw
    simp [exclWS, List.all_eq_true] at h
    have hcontra := h ch hmem
    simp [CCls.test] at ht
    rcases hcontra with hc | hc
    · exact absurd ht.1 (not_le.mpr hc)
    · exact absurd ht.2 (not_le.mpr hc)
  | ws => simp [exclWS] at h
  | dot => simp [exclWS] at h
  | union a b iha ihb =>
    simp [exclWS] at h
    simp [CCls.test] at ht
    rcases ht with ht | ht
    · exact iha h.1 ht
    · exact ihb h.2 ht
  | neg a ih => simp [exclWS] at h

theorem runLen_le (cc : CCls) : ∀ t : Str, runLen cc t ≤ t.length := by
  intro t
  induction t with
  | nil => simp [runLen]
  | cons c t ih =>
    simp only [runLen, List.length_cons]
    split <;> omega

/-- Every candidate match end lies between the start offset and the string
length. -/
theorem seeds_bounds {s : Str} (r : RE) :
    ∀ i cs e cs', (e, cs') ∈ seeds s r i cs → i ≤ e ∧ (i ≤ s.length → e ≤ s.length) := by
  induction r with
  | eps => intro i cs e cs' h; simp [seeds] at h; omega
  | cls cc =>
    intro i cs e cs' h
    simp only [seeds] at h
    cases hg : s[i]? with
    | none => simp [hg] at h
    | some c =>
      have hi : i < s.length := by
        have := List.getElem?_eq_some_iff.mp hg
        exact this.1
      simp [hg] at h
      omega
  | cat a b iha ihb =>
    intro i cs e cs' h
    simp only [seeds, List.mem_flatMap] at h
    obtain ⟨⟨e₁, c₁⟩, h₁, h₂⟩ := h
    have ha := iha i cs e₁ c₁ h₁
    have hb := ihb e₁ c₁ e cs' h₂
    constructor
    · omega
    · intro hle; exact hb.2 (le_trans (by omega) (ha.2 hle))
  | alt a b iha ihb =>
    intro i cs e cs' h
    simp only [seeds, List.mem_append] at h
    rcases h with h | h
    · exact iha i cs e cs' h
    · exact ihb i cs e cs' h
  | star cc =>
    intro i cs e cs' h
    simp only [seeds, List.mem_map, List.mem_range] at h
    obtain ⟨k, hk, he⟩ := h
    have hm : runLen cc (s.drop i) ≤ s.length - i := by
      have := runLen_le cc (s.drop i)
      simpa [List.length_drop] using this
    have he' : i + runLen cc (s.drop i) - k = e := congrArg Prod.fst he
    omega
  | group n a ih =>
    intro i cs e cs' h
    simp only [seeds, List.mem_map] at h
    obtain ⟨⟨e₁, c₁⟩, h₁, he⟩ := h
    have hb := ih i cs e₁ c₁ h₁
    have he' : e₁ = e := congrArg Prod.fst he
    exact he' ▸ hb
  | nla a ih =>
    intro i cs e cs' h
    simp only [seeds] at h
    split at h <;> simp at h
    omega

/-- If `consumes r`, every match of `r` is nonempty: the end offset is
strictly beyond the start offset. -/
theorem seeds_consumes {s : Str} {r : RE} (hc : consumes r = true) :
    ∀ i cs e cs', (e, cs') ∈ seeds s r i cs → i < e := by
  induction r with
  | eps => simp [consumes] at hc
  | cls cc =>
    intro i cs e cs' h
    simp only [seeds] at h
    cases hg : s[i]? with
    | none => simp [hg] at h
    | some c => simp [hg] at h; omega
  | cat a b iha ihb =>
    intro i cs e cs' h
    simp only [seeds, List.mem_flatMap] at h
    obtain ⟨⟨e₁, c₁⟩, h₁, h₂⟩ := h
    simp only [consumes, Bool.or_eq_true] at hc
    rcases hc with hc | hc
    · have := iha hc i cs e₁ c₁ h₁
      have := (seeds_bounds b e₁ c₁ e cs' h₂).1
      omega
    · have := (seeds_bounds a i cs e₁ c₁ h₁).1
      have := ihb hc e₁ c₁ e cs' h₂
      omega
  | alt a b iha ihb =>
    intro i cs e cs' h
    simp only [consumes, Bool.and_eq_true] at hc
    simp only [seeds, List.mem_append] at h
    rcases h with h | h
    · exact iha hc.1 i cs e cs' h
    · exact ihb hc.2 i cs e cs' h
  | star cc => simp [consumes] at hc
  | group n a ih =>
    intro i cs e cs' h
    simp only [seeds, List.mem_map] at h
    obtain ⟨⟨e₁, c₁⟩, h₁, he⟩ := h
    have he' : e₁ = e := congrArg Prod.fst he
    exact he' ▸ ih hc i cs e₁ c₁ h₁
  | nla a ih => simp [consumes] at hc

/-- On an all-whitespace input a pattern that requires a non-whitespace
character has no match at any offset. -/
theorem seeds_allWs {s : Str} (hws : ∀ c ∈ s, jsWs c = true) {r : RE}
    (hr : reqNW r = true) : ∀ i cs, seeds s r i cs = [] := by
  induction r with
  | eps => simp [reqNW] at hr
  | cls cc =>
    intro i cs
    simp only [seeds]
    cases hg : s[i]? with
    | none => rfl
    | some c =>
      have hmem : c ∈ s := List.getElem?_mem hg
      have : CCls.test cc c = false := by
        by_contra hcc
        simp only [Bool.not_eq_false] at hcc
        have := exclWS_spec (by simpa [reqNW] using hr) hcc
        simp [hws c hmem] at this
      simp [this]
  | cat a b iha ihb =>
    intro i cs
    simp only [reqNW, Bool.or_eq_true] at hr
    simp only [seeds]
    rcases hr with hr | hr
    · simp [iha hr]
    · apply List.flatMap_eq_nil_iff.mpr
      intro ec _
      exact ihb hr ec.1 ec.2
  | alt a b iha ihb =>
    intro i cs
    simp only [reqNW, Bool.and_eq_true] at hr
    simp [seeds, iha hr.1, ihb hr.2]
  | star cc => simp [reqNW] at hr
  | group n a ih =>
    intro i cs
    simp only [reqNW] at hr
    simp [seeds, ih hr]
  | nla a ih => simp [reqNW] at hr

/-! ## Properties of the scan -/

/-- Anatomy of a successful `exec`: the reported match starts at or after the
scan position, within the input, and is built from the head of the candidate
list at its start offset. -/
theorem fmf_some_spec {s : Str} {r : RE} :
    ∀ fuel i m, fmf s r fuel i = some m →
      i ≤ m.index ∧ m.index ≤ s.length ∧
        ∃ e cs, (seeds s r m.index []).head? = some (e, cs) ∧
          m = mkMatch s m.index e cs := by
  intro fuel
  induction fuel with
  | zero => intro i m h; simp [fmf] at h
  | succ fuel ih =>
    intro i m h
    simp only [fmf] at h
    split at h
    · simp at h
    · rename_i hle
      cases hh : (seeds s r i []).head? with
      | some ec =>
        simp only [hh, Option.some.injEq] at h
        refine ⟨?_, ?_, ec.1, ec.2, ?_, ?_⟩
        · simp [← h, mkMatch]
        · simp [← h, mkMatch]; omega
        · simp only [← h, mkMatch]; simpa using hh
        · simp [← h, mkMatch]
      | none =>
        simp only [hh] at h
        obtain ⟨h1, h2, h3⟩ := ih (i + 1) m h
        exact ⟨by omega, h2, h3⟩
theorem sliceStr_length {s : Str} {a b : Nat} (hab : a ≤ b) (hb : b ≤ s.length) :
    (sliceStr s a b).length = b - a := by
  simp [sliceStr, List.length_drop, List.length_take]
  omega

/-- What one successful `exec` guarantees: the match starts at or after the
scan position, its text is exactly the input characters it spans, the span
lies inside the input, and (for a pattern that cannot match the empty string)
it is nonempty. -/
theorem firstMatch_some_spec {s : Str} {r : RE} {i : Nat} {m : MatchRes}
    (h : firstMatch s r i = some m) :
    i ≤ m.index ∧ m.index + m.text.length ≤ s.length ∧
      m.text = sliceStr s m.index (m.index + m.text.length) ∧
      (consumes r = true → 1 ≤ m.text.length) := by
  obtain ⟨hle, hlen, e, cs, hh, hm⟩ := fmf_some_spec _ i m h
  have hmem := head?_mem hh
  have hb := seeds_bounds r m.index [] e cs hmem
  have hbe : e ≤ s.length := hb.2 hlen
  have htext : m.text = sliceStr s m.index e := by rw [hm]; simp [mkMatch]
  have hlt : m.text.length = e - m.index := by
    rw [htext, sliceStr_length hb.1 hbe]
  refine ⟨hle, by omega, ?_, ?_⟩
  · rw [hlt]
    have he : m.index + (e - m.index) = e := by omega
    rw [he]
    exact htext
  · intro hc
    have := seeds_consumes hc m.index [] e cs hmem
    omega

/-- On an all-whitespace input, a pattern that requires a non-whitespace
character never matches. -/
theorem firstMatch_allWs_none {s : Str} (hws : ∀ c ∈ s, jsWs c = true) {r : RE}
    (hr : reqNW r = true) : ∀ fuel i, fmf s r fuel i = none := by
  intro fuel
  induction fuel with
  | zero => intro i; rfl
  | succ fuel ih =>
    intro i
    simp only [fmf, seeds_allWs hws hr i]
    split
    · rfl
    · simpa using ih (i + 1)

/-- Every match the scan loop emits was reported by `exec` at some scan
position. -/
theorem mem_execLoop {s : Str} {r : RE} :
    ∀ fuel li m, m ∈ execLoop s r fuel li → ∃ j, firstMatch s r j = some m := by
  intro fuel
  induction fuel with
  | zero => intro li m h; simp [execLoop] at h
  | succ fuel ih =>
    intro li m h
    simp only [execLoop] at h
    cases hf : firstMatch s r li with
    | none => simp [hf] at h
    | some m' =>
      simp only [hf, List.mem_cons] at h
      rcases h with h | h
      · exact ⟨li, h ▸ hf⟩
      · exact ih _ m h

/-- For a pattern that cannot match the empty string, the scan loop emits at
most one match per remaining input character. -/
theorem execLoop_length {s : Str} {r : RE} (hc : consumes r = true) :
    ∀ fuel li, (execLoop s r fuel li).length ≤ s.length - li := by
  intro fuel
  induction fuel with
  | zero => intro li; simp [execLoop]
  | succ fuel ih =>
    intro li
    simp only [execLoop]
    cases hf : firstMatch s r li with
    | none => simp
    | some m =>
      obtain ⟨h1, h2, _, h4⟩ := firstMatch_some_spec hf
      have h5 := h4 hc
      have := ih (m.index + m.text.length)
      simp only [List.length_cons]
      omega

/-- For a pattern that cannot match the empty string, any fuel of at least
`s.length + 1 - li` computes the same scan: the loop terminates on its own
before the fuel runs out. -/
theorem execLoop_fuel {s : Str} {r : RE} (hc : consumes r = true) :
    ∀ f₁ f₂ li, s.length + 1 - li ≤ f₁ → s.length + 1 - li ≤ f₂ →
      execLoop s r f₁ li = execLoop s r f₂ li := by
  intro f₁
  induction f₁ with
  | zero =>
    intro f₂ li h₁ h₂
    have hfm : firstMatch s r li = none := by
      have : s.length + 1 - li = 0 := by omega
      simp [firstMatch, this, fmf]
    cases f₂ with
    | zero => rfl
    | succ f₂ => simp [execLoop, hfm]
  | succ f₁ ih =>
    intro f₂ li h₁ h₂
    cases f₂ with
    | zero =>
      have hfm : firstMatch s r li = none := by
        have : s.length + 1 - li = 0 := by omega
        simp [firstMatch, this, fmf]
      simp [execLoop, hfm]
    | succ f₂ =>
      simp only [execLoop]
      cases hf : firstMatch s r li with
      | none => rfl
      | some m =>
        obtain ⟨h3, h4, _, h6⟩ := firstMatch_some_spec hf
        have h7 := h6 hc
        exact congrArg (m :: ·) (ih f₂ (m.index + m.text.length) (by omega) (by omega))

/-! ## Properties of the stable sort -/

theorem mem_orderedIns {le : α → α → Bool} {a x : α} :
    ∀ l : List α, x ∈ orderedIns le a l ↔ x = a ∨ x ∈ l := by
  intro l
  induction l with
  | nil => simp [orderedIns]
  | cons b l ih =>
    simp only [orderedIns]
    split
    · simp
    · simp [ih]
      tauto

theorem length_orderedIns {le : α → α → Bool} {a : α} :
    ∀ l : List α, (orderedIns le a l).length = l.length + 1 := by
  intro l
  induction l with
  | nil => rfl
  | cons b l ih =>
    simp only [orderedIns]
    split
    · simp
    · simp [ih]

theorem mem_stableSort {le : α → α → Bool} {x : α} :
    ∀ l : List α, x ∈ stableSort le l ↔ x ∈ l := by
  intro l
  induction l with
  | nil => simp [stableSort]
  | cons a l ih => simp [stableSort, mem_orderedIns, ih]

theorem length_stableSort {le : α → α → Bool} :
    ∀ l : List α, (stableSort le l).length = l.length := by
  intro l
  induction l with
  | nil => rfl
  | cons a l ih => simp [stableSort, length_orderedIns, ih]

theorem pairwise_orderedIns {le : α → α → Bool}
    (tot : ∀ a b, le a b || le b a)
    (tr : ∀ a b c, le a b = true → le b c = true → le a c = true) (a : α) :
    ∀ l : List α, l.Pairwise (le · · = true) →
      (orderedIns le a l).Pairwise (le · · = true) := by
  intro l
  induction l with
  | nil => simp [orderedIns]
  | cons b l ih =>
    intro h
    rw [List.pairwise_cons] at h
    simp only [orderedIns]
    split
    · rename_i hab
      rw [List.pairwise_cons]
      refine ⟨?_, List.pairwise_cons.mpr h⟩
      intro x hx
      rcases List.mem_cons.mp hx with rfl | hx
      · exact hab
      · exact tr a b x hab (h.1 x hx)
    · rename_i hab
      have hba : le b a = true := by
        have := tot a b
        simp [hab] at this ⊢
        exact this
      rw [List.pairwise_cons]
      refine ⟨?_, ih h.2⟩
      intro x hx
      rcases (mem_orderedIns l).mp hx with rfl | hx
      · exact hba
      · exact h.1 x hx

theorem pairwise_stableSort {le : α → α → Bool}
    (tot : ∀ a b, le a b || le b a)
    (tr : ∀ a b c, le a b = true → le b c = true → le a c = true) :
    ∀ l : List α, (stableSort le l).Pairwise (le · · = true) := by
  intro l
  induction l with
  | nil => simp [stableSort]
  | cons a l ih => exact pairwise_orderedIns tot tr a _ ih

theorem filter_orderedIns_neg {le : α → α → Bool} {p : α → Bool} {a : α}
    (hpa : p a = false) :
    ∀ l : List α, (orderedIns le a l).filter p = l.filter p := by
  intro l
  induction l with
  | nil => simp [orderedIns, hpa]
  | cons b l ih =>
    simp only [orderedIns]
    split
    · simp [List.filter_cons, hpa]
    · simp [List.filter_cons, ih]

theorem filter_orderedIns_pos {le : α → α → Bool} {p : α → Bool} {a : α}
    (hpa : p a = true) (hkey : ∀ b, p b = true → le a b = true) :
    ∀ l : List α, (orderedIns le a l).filter p = a :: l.filter p := by
  intro l
  induction l with
  | nil => simp [orderedIns, hpa]
  | cons b l ih =>
    simp only [orderedIns]
    split
    · simp [List.filter_cons, hpa]
    · rename_i hab
      have hpb : p b = false := by
        by_contra hc
        simp only [Bool.not_eq_false] at hc
        exact hab (hkey b hc)
      simp [List.filter_cons, hpb, ih]

/-- Stability of the sort, in filter form: the subsequence of elements in any
mutually-tied class (any class on which `le` holds both ways) is unchanged by
sorting. -/
theorem filter_stableSort {le : α → α → Bool} {p : α → Bool}
    (hkey : ∀ a b, p a = true → p b = true → le a b = true) :
    ∀ l : List α, (stableSort le l).filter p = l.filter p := by
  intro l
  induction l with
  | nil => rfl
  | cons a l ih =>
    simp only [stableSort]
    cases hpa : p a with
    | true =>
      rw [filter_orderedIns_pos hpa (fun b hb => hkey a b hpa hb), ih,
        List.filter_cons_of_pos hpa]
    | false =>
      rw [filter_orderedIns_neg hpa, ih, List.filter_cons_of_neg (by simp [hpa])]

/-! ## The comparator as an order -/

theorem issueLE_total : ∀ a b : Issue, issueLE a b || issueLE b a := by
  intro a b
  simp [issueLE]
  omega

theorem issueLE_trans :
    ∀ a b c : Issue, issueLE a b = true → issueLE b c = true → issueLE a c = true := by
  intro a b c h₁ h₂
  simp [issueLE] at h₁ h₂ ⊢
  omega

/-! ## Decomposition of the pipeline -/

/-- `analyze` on a nonempty string: the success path, spelled out. -/
theorem analyze_spec {now : String} {s : Str} (hs : s ≠ []) :
    analyze now (.jstr s) =
      { timestamp := now,
        status := if (rawIssues s).length == 0 then .Clean else .IssuesFound,
        totalIssues := some (rawIssues s).length,
        issues := some (stableSort issueLE (rawIssues s)),
        error := none } := by
  simp [analyze, List.isEmpty_iff, hs]

theorem mem_ruleIssues {s : Str} {rule : Rule} {i : Issue} :
    i ∈ ruleIssues s rule ↔
      ∃ m ∈ scanRule s rule.regex, suppressedMatch rule m = false ∧
        i = mkIssue rule s m := by
  simp only [ruleIssues, List.mem_filterMap]
  constructor
  · rintro ⟨m, hm, hf⟩
    cases hsup : suppressedMatch rule m with
    | true => simp [hsup] at hf
    | false =>
      simp [hsup] at hf
      exact ⟨m, hm, hsup, hf.symm⟩
  · rintro ⟨m, hm, hsup, rfl⟩
    exact ⟨m, hm, by simp [hsup]⟩

theorem mem_rawIssues {s : Str} {i : Issue} :
    i ∈ rawIssues s ↔
      ∃ rule ∈ analysisRules,
        (rule.requiresMemoContext && !hasMemoizedComponent s) = false ∧
          i ∈ ruleIssues s rule := by
  simp only [rawIssues, List.mem_flatMap]
  constructor
  · rintro ⟨rule, hr, hin⟩
    cases hg : (rule.requiresMemoContext && !hasMemoizedComponent s) with
    | true => simp [hg] at hin
    | false =>
      simp only [hg, Bool.false_eq_true, if_false] at hin
      exact ⟨rule, hr, hg, hin⟩
  · rintro ⟨rule, hr, hg, hin⟩
    exact ⟨rule, hr, by simp [hg]; exact hin⟩

/-! ## Claim C1 -/

/-- C1 counterexample: on the empty string the code returns an Error report,
not a Clean one — `''` is falsy in JavaScript, so `!code` rejects it. -/
theorem C1_counterexample :
    (analyze "2024-01-01T00:00:00.000Z" (.jstr (strOf ""))).status = Status.Error ∧
      Status.Error ≠ Status.Clean := by
  exact ⟨rfl, by decide⟩

/-- C1 amended: the one-character-less claim the code satisfies.  The empty
string itself is rejected with an Error report (it is falsy), while every
nonempty input that is empty after trimming (all-whitespace) is accepted and
yields a valid report with status Clean and totalIssues 0. -/
theorem C1_blank_input (now : String) (s : Str) :
    (analyze now (.jstr [])).status = Status.Error ∧
    (s ≠ [] → (∀ c ∈ s, jsWs c = true) →
      (analyze now (.jstr s)).status = Status.Clean ∧
        (analyze now (.jstr s)).totalIssues = some 0) := by
  refine ⟨rfl, fun hs hws => ?_⟩
  have hscan : ∀ r : RE, reqNW r = true → scanRule s r = [] := by
    intro r hr
    have h0 : firstMatch s r 0 = none := by
      simp [firstMatch, firstMatch_allWs_none hws hr]
    simp [scanRule, execLoop, h0]
  have h1 : ruleIssues s ruleA001 = [] := by
    simp [ruleIssues, ruleA001, hscan reA001 (by decide)]
  have h2 : ruleIssues s ruleA002 = [] := by
    simp [ruleIssues, ruleA002, hscan reA002 (by decide)]
  have h3 : ruleIssues s ruleA003 = [] := by
    simp [ruleIssues, ruleA003, hscan reA003 (by decide)]
  have h4 : ruleIssues s ruleB001A = [] := by
    simp [ruleIssues, ruleB001A, hscan reB001 (by decide)]
  have h5 : ruleIssues s ruleB001B = [] := by
    simp [ruleIssues, ruleB001B, hscan reB001 (by decide)]
  have h6 : ruleIssues s ruleB002 = [] := by
    simp [ruleIssues, ruleB002, hscan reB002 (by decide)]
  have h7 : ruleIssues s ruleB003 = [] := by
    simp [ruleIssues, ruleB003, hscan reB003 (by decide)]
  have h8 : ruleIssues s ruleC001 = [] := by
    simp [ruleIssues, ruleC001, hscan reC001 (by decide)]
  have h9 : ruleIssues s ruleC002 = [] := by
    simp [ruleIssues, ruleC002, hscan reC002 (by decide)]
  have hraw : rawIssues s = [] := by
    simp [rawIssues, analysisRules, h1, h2, h3, h4, h5, h6, h7, h8, h9]
  simp [analyze_spec hs, hraw]

/-- C1 witness: the one-space input is nonempty, all-whitespace, and indeed
reported Clean with zero issues. -/
theorem C1_blank_input_witness :
    ([' '] : Str) ≠ [] ∧ jsWs ' ' = true ∧
      (analyze "T" (.jstr [' '])).status = Status.Clean ∧
      (analyze "T" (.jstr [' '])).totalIssues = some 0 := by
  have h := (C1_blank_input "T" [' ']).2 (by decide) (by decide)
  exact ⟨by decide, by decide, h.1, h.2⟩

/-! ## Claim C2 -/

/-- `typeof code === 'string'`. -/
def isStringVal : JSVal → Bool
  | .jstr _ => true
  | _ => false

/-- C2: for every non-string argument (null, undefined/absent, number,
boolean, other object), `analyze` returns — it never throws, being a total
function — a well-formed report with status Error, the fixed message, no
`issues` field at all and no `totalIssues` field, hence structurally distinct
from a zero-issue Clean report (whose `issues` field is `some []`). -/
theorem C2_nonstring_error (now : String) (v : JSVal)
    (hv : isStringVal v = false) :
    (analyze now v).status = Status.Error ∧
      (analyze now v).error = some invalidMsg ∧
      (analyze now v).issues = none ∧
      (analyze now v).totalIssues = none := by
  cases v with
  | jstr s => simp [isStringVal] at hv
  | jnull => exact ⟨rfl, rfl, rfl, rfl⟩
  | jundefined => exact ⟨rfl, rfl, rfl, rfl⟩
  | jnum n => exact ⟨rfl, rfl, rfl, rfl⟩
  | jbool b => exact ⟨rfl, rfl, rfl, rfl⟩
  | jobject => exact ⟨rfl, rfl, rfl, rfl⟩

/-- C2 witness: at the concrete input `null`. -/
theorem C2_nonstring_error_witness :
    isStringVal JSVal.jnull = false ∧
      (analyze "T" JSVal.jnull).status = Status.Error ∧
      (analyze "T" JSVal.jnull).error = some invalidMsg ∧
      (analyze "T" JSVal.jnull).issues = none := by
  have h := C2_nonstring_error "T" JSVal.jnull rfl
  exact ⟨rfl, h.1, h.2.1, h.2.2.1⟩

/-! ## Claim C8 -/

/-- C8: `analyze` is deterministic — two calls on the same string differ at
most in the timestamp.  The embedding makes the ambient clock an explicit
parameter, and no other state exists: the source resets `regex.lastIndex` at
the start of each scan, so each call's scans are independent of earlier
calls. -/
theorem C8_deterministic (t₁ t₂ : String) (s : Str) :
    (analyze t₁ (.jstr s)).status = (analyze t₂ (.jstr s)).status ∧
    (analyze t₁ (.jstr s)).totalIssues = (analyze t₂ (.jstr s)).totalIssues ∧
    (analyze t₁ (.jstr s)).issues = (analyze t₂ (.jstr s)).issues ∧
    (analyze t₁ (.jstr s)).error = (analyze t₂ (.jstr s)).error := by
  by_cases hs : s.isEmpty <;> simp [analyze, hs]

theorem ruleIssues_fields {s : Str} {rule : Rule} {i : Issue}
    (h : i ∈ ruleIssues s rule) :
    i.id = rule.id ∧ i.type = rule.type ∧ i.severity = rule.severity := by
  obtain ⟨m, -, -, rfl⟩ := mem_ruleIssues.mp h
  exact ⟨rfl, rfl, rfl⟩

theorem severity_mem_catalog {rule : Rule} (h : rule ∈ analysisRules) :
    rule.severity = "High" ∨ rule.severity = "Medium" ∨ rule.severity = "Low" ∨
      rule.severity = "Info" := by
  simp only [analysisRules, List.mem_cons, List.not_mem_nil, or_false] at h
  rcases h with rfl | rfl | rfl | rfl | rfl | rfl | rfl | rfl | rfl <;> decide

/-! ## Claim C3 -/

/-- The ordering property claimed of adjacent issues: severity rank descending,
line number ascending within equal ranks. -/
def issueOrd (a b : Issue) : Prop :=
  severityRank b.severity ≤ severityRank a.severity ∧
    (severityRank a.severity = severityRank b.severity →
      a.occurrence.lineNumber ≤ b.occurrence.lineNumber)

/-- Membership in one tie class of the two sort keys. -/
def sevLinePred (sv : String) (ln : Nat) (i : Issue) : Bool :=
  i.severity == sv && i.occurrence.lineNumber == ln

theorem issueLE_implies {a b : Issue} (h : issueLE a b = true) : issueOrd a b := by
  simp only [issueLE, Bool.or_eq_true, Bool.and_eq_true, decide_eq_true_eq,
    beq_iff_eq] at h
  constructor
  · omega
  · omega

/-- C3: the issue sequence of every report is sorted by severity rank
descending then line number ascending (`Chain'` states the adjacent-pair
property), and the sort is stable: within any tie class of the two keys the
sequence coincides with the pre-sort catalog-then-scan-position order
(`rawIssues`). -/
theorem C3_sorted_ranking (now : String) (s : Str) (l : List Issue)
    (h : (analyze now (.jstr s)).issues = some l) :
    l.Chain' issueOrd ∧
      ∀ sv ln, l.filter (sevLinePred sv ln) =
        (rawIssues s).filter (sevLinePred sv ln) := by
  by_cases hs : s = []
  · simp [hs, analyze] at h
  · rw [analyze_spec hs] at h
    simp only [Option.some.injEq] at h
    subst h
    constructor
    · have hp := pairwise_stableSort issueLE_total issueLE_trans (rawIssues s)
      exact List.Chain'.imp (fun a b hab => issueLE_implies hab) hp.chain'
    · intro sv ln
      apply filter_stableSort
      intro a b ha hb
      simp only [sevLinePred, Bool.and_eq_true, beq_iff_eq] at ha hb
      simp [issueLE, ha.1, ha.2, hb.1, hb.2]

/-- C3 witness: a two-issue input (two `useState` misuses on two lines), with
the sortedness and the "Low"-severity line-1 tie class instantiated. -/
theorem C3_sorted_ranking_witness :
    (analyze "T" (.jstr (strOf "useState(a)\nuseState(b)"))).issues =
        some (((analyze "T" (.jstr (strOf "useState(a)\nuseState(b)"))).issues).getD []) ∧
      (((analyze "T" (.jstr (strOf "useState(a)\nuseState(b)"))).issues).getD []).Chain'
        issueOrd ∧
      (((analyze "T" (.jstr (strOf "useState(a)\nuseState(b)"))).issues).getD []).filter
          (sevLinePred "Low" 1) =
        (rawIssues (strOf "useState(a)\nuseState(b)")).filter (sevLinePred "Low" 1) := by
  have h : (analyze "T" (.jstr (strOf "useState(a)\nuseState(b)"))).issues =
      some (((analyze "T" (.jstr (strOf "useState(a)\nuseState(b)"))).issues).getD []) := by
    rfl
  have hc := C3_sorted_ranking "T" (strOf "useState(a)\nuseState(b)") _ h
  exact ⟨h, hc.1, hc.2 "Low" 1⟩

/-! ## Claim C4 -/

/-- C4: whenever a report carries an issues sequence (every string input
except the falsy empty string, whose Error report carries none — see C1/C2),
`totalIssues` is exactly its length (no truncation), the status is Clean
precisely on zero issues and IssuesFound otherwise, and every issue's
severity is one of the four catalog severities. -/
theorem C4_report_shape (now : String) (s : Str) (l : List Issue)
    (h : (analyze now (.jstr s)).issues = some l) :
    (analyze now (.jstr s)).totalIssues = some l.length ∧
    (l.length = 0 → (analyze now (.jstr s)).status = Status.Clean) ∧
    (l.length ≠ 0 → (analyze now (.jstr s)).status = Status.IssuesFound) ∧
    ∀ i ∈ l, i.severity = "High" ∨ i.severity = "Medium" ∨ i.severity = "Low" ∨
      i.severity = "Info" := by
  by_cases hs : s = []
  · simp [hs, analyze] at h
  · rw [analyze_spec hs] at h
    simp only [Option.some.injEq] at h
    subst h
    rw [analyze_spec hs]
    refine ⟨?_, ?_, ?_, ?_⟩
    · simp [length_stableSort]
    · intro hlen
      rw [length_stableSort] at hlen
      simp [hlen]
    · intro hlen
      rw [length_stableSort] at hlen
      simp only []
      rw [if_neg (by simpa using hlen)]
    · intro i hi
      rw [mem_stableSort] at hi
      obtain ⟨rule, hr, -, hin⟩ := mem_rawIssues.mp hi
      obtain ⟨-, -, hsev⟩ := ruleIssues_fields hin
      rw [hsev]
      exact severity_mem_catalog hr

/-- C4 witness: a clean three-character input with `some []` issues. -/
theorem C4_report_shape_witness :
    (analyze "T" (.jstr (strOf "zzz"))).issues = some [] ∧
      (analyze "T" (.jstr (strOf "zzz"))).totalIssues = some 0 ∧
      (analyze "T" (.jstr (strOf "zzz"))).status = Status.Clean := by
  have h : (analyze "T" (.jstr (strOf "zzz"))).issues = some [] := by rfl
  have hc := C4_report_shape "T" (strOf "zzz") [] h
  exact ⟨h, hc.1, hc.2.1 rfl⟩

/-! ## Claim C5 -/

/-- C5: the memoization-context gate.  When the input has no text matching
the wrapper signature `/React\.memo\s*\(/`, the gated rule B001A contributes
nothing (no issue with its id appears), even though its pattern (shared with
the ungated B001B) may match.  When the signature is present together with a
match of its inline-function pattern, the report contains an issue of B001A's
`type`. -/
theorem C5_memo_gating (now : String) (s : Str) :
    (hasMemoizedComponent s = false →
      ∀ i ∈ (analyze now (.jstr s)).issues.getD [], i.id ≠ "B001A") ∧
    (hasMemoizedComponent s = true →
      ∀ m, firstMatch s reB001 0 = some m →
        ∃ i ∈ (analyze now (.jstr s)).issues.getD [],
          i.type = "inline-function-breaks-memoization") := by
  constructor
  · intro hmemo i hi
    by_cases hs : s = []
    · simp [hs, analyze] at hi
    · have hiss : (analyze now (.jstr s)).issues =
          some (stableSort issueLE (rawIssues s)) := by rw [analyze_spec hs]
      rw [hiss, Option.getD_some, mem_stableSort] at hi
      obtain ⟨rule, hr, hg, hin⟩ := mem_rawIssues.mp hi
      obtain ⟨hid, -, -⟩ := ruleIssues_fields hin
      rw [hid]
      simp only [analysisRules, List.mem_cons, List.not_mem_nil, or_false] at hr
      rcases hr with rfl | rfl | rfl | rfl | rfl | rfl | rfl | rfl | rfl <;>
        first
          | decide
          | simp [ruleB001A, hmemo] at hg
  · intro hmemo m hm
    have hs : s ≠ [] := by
      intro hnil
      subst hnil
      obtain ⟨-, h2, -, h4⟩ := firstMatch_some_spec hm
      have := h4 (by decide)
      simp only [List.length_nil] at h2
      omega
    have hiss : (analyze now (.jstr s)).issues =
        some (stableSort issueLE (rawIssues s)) := by rw [analyze_spec hs]
    rw [hiss, Option.getD_some]
    refine ⟨mkIssue ruleB001A s m, ?_, rfl⟩
    rw [mem_stableSort]
    apply mem_rawIssues.mpr
    refine ⟨ruleB001A, by simp [analysisRules], by simp [ruleB001A, hmemo], ?_⟩
    apply mem_ruleIssues.mpr
    refine ⟨m, ?_, rfl, rfl⟩
    simp [scanRule, execLoop, ruleB001A, hm]

/-- C5 witness: without `React.memo(` the inline-handler input yields no
B001A-id issue (instantiated at the concrete B001B issue the same pattern
emits); with it, a B001A-typed issue appears. -/
theorem C5_memo_gating_witness :
    hasMemoizedComponent (strOf "<a onClick={() => b}/>") = false ∧
    (mkIssue ruleB001B (strOf "<a onClick={() => b}/>")
        ⟨3, strOf "onClick={() => b}", some (strOf "onClick")⟩).id ≠ "B001A" ∧
    hasMemoizedComponent (strOf "React.memo(x);<a onClick={() => b}/>") = true ∧
    (∃ i ∈ (analyze "T" (.jstr (strOf "React.memo(x);<a onClick={() => b}/>"))).issues.getD [],
      i.type = "inline-function-breaks-memoization") := by
  refine ⟨by decide, ?_, by decide, ?_⟩
  · exact (C5_memo_gating "T" (strOf "<a onClick={() => b}/>")).1 (by decide) _ (by decide)
  · obtain ⟨m, hm⟩ := Option.isSome_iff_exists.mp
      (show (firstMatch (strOf "React.memo(x);<a onClick={() => b}/>") reB001 0).isSome = true
        by decide)
    exact (C5_memo_gating "T" (strOf "React.memo(x);<a onClick={() => b}/>")).2
      (by decide) m hm

/-! ## Claim C6 -/

theorem filterMap_ite {p : α → Bool} {f : α → β} :
    ∀ l : List α,
      l.filterMap (fun m => if p m then none else some (f m)) =
        (l.filter (fun m => !p m)).map f := by
  intro l
  induction l with
  | nil => rfl
  | cons a l ih =>
    cases hpa : p a with
    | true => simp [List.filterMap_cons, List.filter_cons, hpa, ih]
    | false => simp [List.filterMap_cons, List.filter_cons, hpa, ih]

/-- C6: the A003 allow-list.  In general the issues the A003 rule contributes
are exactly its matches minus those whose first capture is a member of
`SAFE_USESTATE_INITIALIZERS` (case-sensitive string membership, per
`suppressedMatch`): a suppressed occurrence contributes no issue and no count
increment.  Concretely, `useState(Number)` yields no issue at all, while
`useState(myInitializerRef)` yields exactly one issue, of id A003, whose
match captures `myInitializerRef`. -/
theorem C6_allowlist_suppression (now : String) :
    (∀ s : Str, ruleIssues s ruleA003 =
        ((scanRule s reA003).filter
          (fun m => !suppressedMatch ruleA003 m)).map (mkIssue ruleA003 s)) ∧
    (analyze now (.jstr (strOf "useState(Number)"))).issues = some [] ∧
    (analyze now (.jstr (strOf "useState(Number)"))).totalIssues = some 0 ∧
    ((analyze now (.jstr (strOf "useState(myInitializerRef)"))).issues.getD []).map
        (fun i => i.id) = ["A003"] ∧
    (scanRule (strOf "useState(myInitializerRef)") reA003).map (fun m => m.cap1) =
      [some (strOf "myInitializerRef")] := by
  refine ⟨fun s => ?_, rfl, rfl, rfl, rfl⟩
  simp only [ruleIssues]
  exact filterMap_ite (scanRule s ruleA003.regex)

/-! ## Claim C7 -/

/-- C7 counterexample: for input `<img x` the single (C001) match spans
offsets `[0, 5)` — its text `<img ` ends in the whitespace consumed by `\s+`
— but the reported `charEnd` is `4`, because the source computes
`charEnd = startIndex + match[0].trim().length`, not the match's true end
offset.  So "charEnd is the offset just past the match's end" fails. -/
theorem C7_counterexample :
    ((analyze "T" (.jstr (strOf "<img x"))).issues.getD []).map
        (fun i => (i.occurrence.charStart, i.occurrence.charEnd)) = [(0, 4)] ∧
    (scanRule (strOf "<img x") reC001).map
        (fun m => (m.index, m.index + m.text.length)) = [(0, 5)] ∧
    ((4 : Nat) = 5 → False) := by
  exact ⟨rfl, rfl, by omega⟩

theorem trimStr_length_le (t : Str) : (trimStr t).length ≤ t.length := by
  have h1 := (List.dropWhile_sublist (l := t) jsWs).length_le
  have h2 := (List.dropWhile_sublist (l := (t.dropWhile jsWs).reverse) jsWs).length_le
  simp only [trimStr, List.length_reverse] at *
  omega

/-- Every issue of a report arises as `mkIssue` of some match of some catalog
rule, and that match's text is exactly the input span it claims, inside the
input. -/
theorem mem_issues_decompose {now : String} {s : Str} {i : Issue}
    (h : i ∈ (analyze now (.jstr s)).issues.getD []) :
    ∃ rule ∈ analysisRules, ∃ m ∈ scanRule s rule.regex,
      i = mkIssue rule s m ∧
      m.text = sliceStr s m.index (m.index + m.text.length) ∧
      m.index + m.text.length ≤ s.length := by
  by_cases hs : s = []
  · simp [hs, analyze] at h
  · have hiss : (analyze now (.jstr s)).issues =
        some (stableSort issueLE (rawIssues s)) := by rw [analyze_spec hs]
    rw [hiss, Option.getD_some, mem_stableSort] at h
    obtain ⟨rule, hr, -, hin⟩ := mem_rawIssues.mp h
    obtain ⟨m, hm, -, rfl⟩ := mem_ruleIssues.mp hin
    obtain ⟨j, hj⟩ := mem_execLoop _ _ m hm
    obtain ⟨-, hlen, htext, -⟩ := firstMatch_some_spec hj
    exact ⟨rule, hr, m, hm, rfl, htext, hlen⟩

/-- C7 amended: every reported occurrence comes from a match of its rule;
`lineNumber` is 1-based and equals one plus the newline count strictly before
the match start; `snippet` is the trimmed match text; `charStart` is the
match's start offset; the match text is exactly the input characters of the
span; but `charEnd` is `charStart` plus the length of the *trimmed* text —
it is the offset just past the match's end only when the match text has no
leading/trailing whitespace (no catalog match starts with whitespace, but
C001/C002 matches end with it). -/
theorem C7_occurrence_fields (now : String) (s : Str) (i : Issue)
    (h : i ∈ (analyze now (.jstr s)).issues.getD []) :
    ∃ rule ∈ analysisRules, ∃ m ∈ scanRule s rule.regex,
      i = mkIssue rule s m ∧
      i.occurrence.lineNumber = countNewlines (s.take m.index) + 1 ∧
      i.occurrence.snippet = trimStr m.text ∧
      i.occurrence.charStart = m.index ∧
      i.occurrence.charEnd = m.index + (trimStr m.text).length ∧
      m.text = sliceStr s m.index (m.index + m.text.length) := by
  obtain ⟨rule, hr, m, hm, rfl, htext, -⟩ := mem_issues_decompose h
  exact ⟨rule, hr, m, hm, rfl, rfl, rfl, rfl, rfl, htext⟩

/-- C7 witness: instantiated at the single issue of input `<img x`. -/
theorem C7_occurrence_fields_witness :
    mkIssue ruleC001 (strOf "<img x") ⟨0, strOf "<img ", none⟩ ∈
        (analyze "T" (.jstr (strOf "<img x"))).issues.getD [] ∧
      ∃ rule ∈ analysisRules, ∃ m ∈ scanRule (strOf "<img x") rule.regex,
        mkIssue ruleC001 (strOf "<img x") ⟨0, strOf "<img ", none⟩ = mkIssue rule (strOf "<img x") m ∧
        (mkIssue ruleC001 (strOf "<img x") ⟨0, strOf "<img ", none⟩).occurrence.lineNumber =
          countNewlines ((strOf "<img x").take m.index) + 1 ∧
        (mkIssue ruleC001 (strOf "<img x") ⟨0, strOf "<img ", none⟩).occurrence.snippet =
          trimStr m.text ∧
        (mkIssue ruleC001 (strOf "<img x") ⟨0, strOf "<img ", none⟩).occurrence.charStart =
          m.index ∧
        (mkIssue ruleC001 (strOf "<img x") ⟨0, strOf "<img ", none⟩).occurrence.charEnd =
          m.index + (trimStr m.text).length ∧
        m.text = sliceStr (strOf "<img x") m.index (m.index + m.text.length) := by
  have h : mkIssue ruleC001 (strOf "<img x") ⟨0, strOf "<img ", none⟩ ∈
      (analyze "T" (.jstr (strOf "<img x"))).issues.getD [] := by decide
  exact ⟨h, C7_occurrence_fields "T" (strOf "<img x") _ h⟩

/-! ## Claim C9 -/

/-- C9: for every input and every catalog rule the per-rule scan terminates
with a finite occurrence sequence bounded by the input length.  Every
successful match is nonempty (conjunct 2), so every match strictly advances
the scan position `lastIndex = m.index + m.text.length` past the position it
was found from; in particular no zero-width match ever occurs for a catalog
rule, making the zero-width proviso vacuous.  Conjunct 3 expresses
termination: any fuel beyond `length + 1` computes the same (already
converged) scan. -/
theorem C9_scan_terminates (s : Str) (rule : Rule) (hr : rule ∈ analysisRules) :
    (scanRule s rule.regex).length ≤ s.length ∧
    (∀ m ∈ scanRule s rule.regex,
      1 ≤ m.text.length ∧ m.index + m.text.length ≤ s.length) ∧
    (∀ fuel, s.length + 1 ≤ fuel →
      execLoop s rule.regex fuel 0 = scanRule s rule.regex) := by
  have hc : consumes rule.regex = true := by
    simp only [analysisRules, List.mem_cons, List.not_mem_nil, or_false] at hr
    rcases hr with rfl | rfl | rfl | rfl | rfl | rfl | rfl | rfl | rfl <;> decide
  refine ⟨?_, ?_, ?_⟩
  · have := execLoop_length (s := s) hc (s.length + 1) 0
    simpa [scanRule] using this
  · intro m hm
    obtain ⟨j, hj⟩ := mem_execLoop _ _ m hm
    obtain ⟨-, h2, -, h4⟩ := firstMatch_some_spec hj
    exact ⟨h4 hc, h2⟩
  · intro fuel hf
    exact execLoop_fuel hc fuel (s.length + 1) 0 (by omega) (by omega)

/-- C9 witness: rule A001 on a concrete effect snippet. -/
theorem C9_scan_terminates_witness :
    ruleA001 ∈ analysisRules ∧
      (scanRule (strOf "useEffect(() => {x})") ruleA001.regex).length ≤
        (strOf "useEffect(() => {x})").length ∧
      execLoop (strOf "useEffect(() => {x})") ruleA001.regex
          ((strOf "useEffect(() => {x})").length + 5) 0 =
        scanRule (strOf "useEffect(() => {x})") ruleA001.regex := by
  have h := C9_scan_terminates (strOf "useEffect(() => {x})") ruleA001 (by decide)
  exact ⟨by decide, h.1, h.2.2 _ (by omega)⟩

/-! ## Claim C10 -/

/-- C10: the bounds invariant of every reported occurrence: line numbers are
1-based, `charStart ≤ charEnd ≤ length(input)` (with `charStart ≥ 0` by
type), and `charEnd - charStart` is exactly the snippet length. -/
theorem C10_bounds_invariant (now : String) (s : Str) (i : Issue)
    (h : i ∈ (analyze now (.jstr s)).issues.getD []) :
    1 ≤ i.occurrence.lineNumber ∧
    i.occurrence.charStart ≤ i.occurrence.charEnd ∧
    i.occurrence.charEnd ≤ s.length ∧
    i.occurrence.charEnd - i.occurrence.charStart = i.occurrence.snippet.length := by
  obtain ⟨rule, -, m, -, rfl, -, hlen⟩ := mem_issues_decompose h
  have htrim := trimStr_length_le m.text
  refine ⟨?_, ?_, ?_, ?_⟩ <;> simp only [mkIssue] <;> omega

/-- C10 witness: instantiated at the single issue of `useState(foo)`. -/
theorem C10_bounds_invariant_witness :
    mkIssue ruleA003 (strOf "useState(foo)") ⟨0, strOf "useState(foo)", some (strOf "foo")⟩ ∈
        (analyze "T" (.jstr (strOf "useState(foo)"))).issues.getD [] ∧
      1 ≤ (mkIssue ruleA003 (strOf "useState(foo)")
        ⟨0, strOf "useState(foo)", some (strOf "foo")⟩).occurrence.lineNumber ∧
      (mkIssue ruleA003 (strOf "useState(foo)")
        ⟨0, strOf "useState(foo)", some (strOf "foo")⟩).occurrence.charEnd ≤
        (strOf "useState(foo)").length := by
  have h : mkIssue ruleA003 (strOf "useState(foo)")
      ⟨0, strOf "useState(foo)", some (strOf "foo")⟩ ∈
      (analyze "T" (.jstr (strOf "useState(foo)"))).issues.getD [] := by decide
  have hc := C10_bounds_invariant "T" (strOf "useState(foo)") _ h
  exact ⟨h, hc.1, hc.2.2.1⟩

end Rerender
